import Mathlib

/-!
Shallow embedding of the key-value-db-on-tcp sources:
`src/include/kv_store.h`, `src/include/resp_parser.h`,
`src/include/proto_handler.h`.

Byte strings (`std::string` payloads) are modelled as `List Char`, one
`Char` per byte; all source operations on them are byte-agnostic.
Machine `size_t` arithmetic is modelled on `Nat`/`Int` with an explicit
`% 2 ^ 64` where the C++ arithmetic can wrap (the bulk-string length
cast `static_cast<size_t>(length)` for negative lengths).
-/

/-- Byte strings: one `Char` per byte. -/
abbrev Str := List Char

/-- The byte `input[pos]` of a C++ string; the default is never reached
on paths where the source guarantees `pos < input.size()`. -/
def chAt (l : Str) (n : Nat) : Char := (l.drop n).headD ' '

/-- The substring `input.substr(a, b - a)` of a C++ string. -/
def subStr (l : Str) (a b : Nat) : Str := (l.drop a).take (b - a)

/-- Index (from the front of `l`) of the first CRLF pair, if any. -/
def findCRLF : List Char → Option Nat
| [] => none
| a :: rest =>
  match rest with
  | [] => none
  | b :: _ =>
    if a = '\r' ∧ b = '\n' then some 0
    else (findCRLF rest).map (· + 1)

/-- Model of `input.find("\r\n", pos)`: the least `i ≥ pos` such that
`input[i] = CR` and `input[i+1] = LF`; `none` stands for `npos`. -/
def find2 (input : Str) (pos : Nat) : Option Nat :=
  (findCRLF (input.drop pos)).map (· + pos)

/-- Is the byte an ASCII decimal digit (as `std::from_chars` accepts). -/
def isDigitChar (c : Char) : Bool := 48 ≤ c.toNat && c.toNat ≤ 57

/-- Numeric value of a decimal digit byte. -/
def digitVal (c : Char) : Nat := c.toNat - 48

/-- Value of a digit string read in base 10. -/
def decVal (ds : Str) : Nat := ds.foldl (fun a c => 10 * a + digitVal c) 0

/-- Model of `std::from_chars` into `int64_t` where the source demands
that the whole field be consumed (`ptr == end`): an optional minus sign
followed by one or more digits, the value fitting a signed 64-bit
integer; anything else (including overflow) yields `none` (`ec != 0` or
`ptr != end` in the source). -/
def fromCharsI64 (field : Str) : Option Int :=
  if field = [] then none
  else if field.headD ' ' = '-' then
    if field.tail = [] then none
    else if field.tail.all isDigitChar then
      if decVal field.tail ≤ 2 ^ 63 then some (-(decVal field.tail : Int)) else none
    else none
  else
    if field.all isDigitChar then
      if decVal field < 2 ^ 63 then some ((decVal field : Nat) : Int) else none
    else none

/-- Decimal digit as a byte, as `std::to_string` emits. -/
def digitChar (n : Nat) : Char := Char.ofNat (48 + n)

/-- Model of `std::to_string` on an unsigned value. -/
def natDigits (n : Nat) : Str :=
  if n < 10 then [digitChar n] else natDigits (n / 10) ++ [digitChar (n % 10)]
termination_by n
decreasing_by
  exact Nat.div_lt_self (by omega) (by omega)

/-- The two-byte CRLF terminator. -/
def crlf : Str := ['\r', '\n']

/-- RESP values (`class RESPValue` in `resp_parser.h`): a tagged union;
`strValue` of the non-string variants is the default-constructed empty
string, `intValue` only matters for `integer`. -/
inductive RESPValue : Type where
| simpleString (s : Str)
| error (s : Str)
| integer (i : Int)
| bulkString (s : Str)
| array (elems : List RESPValue)
| null

/-- The `strValue` field: set by the string-carrying constructors,
default-empty otherwise. -/
def RESPValue.strValueOf : RESPValue → Str
| .simpleString s => s
| .error s => s
| .bulkString s => s
| _ => []

namespace RESPParser

/-- `createRESPResponse`: `"$" + to_string(value.size()) + CRLF + value + CRLF`. -/
def createRESPResponse (value : Str) : Str :=
  '$' :: (natDigits value.length ++ crlf ++ value ++ crlf)

/-- `createOKResponse`: the simple string `+OK\r\n`. -/
def createOKResponse : Str := "+OK\r\n".data

/-- `createErrorResponse`: `"-" + message + CRLF`. -/
def createErrorResponse (message : Str) : Str := '-' :: (message ++ crlf)

/-- `createMissingResponse`: the null bulk string `$-1\r\n`. -/
def createMissingResponse : Str := "$-1\r\n".data

/-- `createDELResponse`: `:1\r\n` when deleted, `:0\r\n` otherwise. -/
def createDELResponse (deleted : Bool) : Str :=
  if deleted then ":1\r\n".data else ":0\r\n".data

/-- `parseSimpleString`: bytes up to the first CRLF after `pos`. -/
def parseSimpleString (input : Str) (pos : Nat) : Except String (RESPValue × Nat) :=
  match find2 input pos with
  | none => .error "Unterminated simple string"
  | some e => .ok (.simpleString (subStr input pos e), e + 2)

/-- `parseError`: bytes up to the first CRLF after `pos`. -/
def parseErrorVal (input : Str) (pos : Nat) : Except String (RESPValue × Nat) :=
  match find2 input pos with
  | none => .error "Unterminated error"
  | some e => .ok (.error (subStr input pos e), e + 2)

/-- `parseInteger`: the whole line must be a valid signed decimal. -/
def parseInteger (input : Str) (pos : Nat) : Except String (RESPValue × Nat) :=
  match find2 input pos with
  | none => .error "Unterminated integer"
  | some e =>
    match fromCharsI64 (subStr input pos e) with
    | none => .error "Invalid integer format"
    | some i => .ok (.integer i, e + 2)

/-- `parseBulkString`. The source computes `pos + static_cast<size_t>(length) + 2`
in `size_t`, so for negative lengths other than `-1` the cast and the sums wrap
modulo `2 ^ 64`; a negative count that survives the two checks reaches
`strValue.assign(..., length)`, whose huge `size_t` count exceeds
`basic_string::max_size` and raises `std::length_error` (any count
`≥ 2 ^ 63` certainly does, and every wrapped negative count is `≥ 2 ^ 63`). -/
def parseBulkString (input : Str) (pos : Nat) : Except String (RESPValue × Nat) :=
  match find2 input pos with
  | none => .error "Unterminated bulk string length"
  | some lenEnd =>
    match fromCharsI64 (subStr input pos lenEnd) with
    | none => .error "Invalid bulk string length"
    | some length =>
      let pos2 := lenEnd + 2
      if length = -1 then .ok (.null, pos2)
      else
        let lenW : Nat := (length % (2 ^ 64 : Int)).toNat
        if (pos2 + lenW + 2) % 2 ^ 64 > input.length then
          .error "Incomplete bulk string"
        else if chAt input ((pos2 + lenW) % 2 ^ 64) ≠ '\r' ∨
            chAt input ((pos2 + lenW + 1) % 2 ^ 64) ≠ '\n' then
          .error "Invalid bulk string terminator"
        else if 2 ^ 63 ≤ lenW then
          .error "basic_string::assign"
        else
          .ok (.bulkString (subStr input pos2 (pos2 + lenW)), (pos2 + lenW + 2) % 2 ^ 64)

/-- The element loop of `parseArray`: `n` successive calls to the parse
function `p` (the recursive `parse` at one less fuel), threading the
cursor and collecting the elements. -/
def parseElemsWith (p : Str → Nat → Except String (RESPValue × Nat)) :
    Nat → Str → Nat → Except String (List RESPValue × Nat)
| 0, _, pos => .ok ([], pos)
| n + 1, input, pos =>
  match p input pos with
  | .error e => .error e
  | .ok (v, pos2) =>
    match parseElemsWith p n input pos2 with
    | .error e => .error e
    | .ok (vs, pos3) => .ok (v :: vs, pos3)

/-- `parseArray`, parameterized by the parse function used for the
elements. For a negative length other than `-1`,
`arrayValue.reserve(length)` receives a wrapped huge `size_t` count and
raises `std::length_error`. -/
def parseArrayWith (p : Str → Nat → Except String (RESPValue × Nat))
    (input : Str) (pos : Nat) : Except String (RESPValue × Nat) :=
  match find2 input pos with
  | none => .error "Unterminated array length"
  | some lenEnd =>
    match fromCharsI64 (subStr input pos lenEnd) with
    | none => .error "Invalid array length"
    | some length =>
      let pos2 := lenEnd + 2
      if length = -1 then .ok (.null, pos2)
      else if length < 0 then .error "vector::reserve"
      else
        match parseElemsWith p length.toNat input pos2 with
        | .error e => .error e
        | .ok (vs, p2) => .ok (.array vs, p2)

/-- `RESPParser::parse`, with explicit fuel for the recursion through
nested arrays (the source recursion is bounded by the input length; the
fuel chosen by callers, `input.length + 1`, is always sufficient). -/
def parse : Nat → Str → Nat → Except String (RESPValue × Nat)
| 0, _, _ => .error "insufficient fuel"
| fuel + 1, input, pos =>
  if pos ≥ input.length then .error "Unexpected end of input"
  else
    let c := chAt input pos
    if c = '+' then parseSimpleString input (pos + 1)
    else if c = '-' then parseErrorVal input (pos + 1)
    else if c = ':' then parseInteger input (pos + 1)
    else if c = '$' then parseBulkString input (pos + 1)
    else if c = '*' then parseArrayWith (fun inp q => parse fuel inp q) input (pos + 1)
    else .error ("Invalid RESP prefix: '" ++ String.singleton c ++ "'")
termination_by structural fuel _ _ => fuel

end RESPParser

namespace KVStore

/-- The in-memory map of `KVStore`, modelled as an association list of
entries (the hash map's iteration order is irrelevant to the claims). -/
abbrev Map (α β : Type) := List (α × β)

/-- `KVStore::get`: shared lock, `find`, return the mapped value or
`nullopt`. -/
def get {α β : Type} [BEq α] (m : Map α β) (k : α) : Option β :=
  (m.find? fun p => p.1 == k).map Prod.snd

/-- `KVStore::get` with the store state threaded through, mirroring that
the method only reads `data`. -/
def getS {α β : Type} [BEq α] (m : Map α β) (k : α) : Option β × Map α β :=
  (get m k, m)

/-- `KVStore::set`: exclusive lock, `data[key] = value` — overwrite the
existing entry for the key or append a fresh one. -/
def set {α β : Type} [BEq α] (m : Map α β) (k : α) (v : β) : Map α β :=
  if m.any fun p => p.1 == k then
    m.map fun p => if p.1 == k then (k, v) else p
  else m ++ [(k, v)]

/-- `KVStore::del`: exclusive lock, `data.erase(key) > 0` — the Boolean
records whether an entry existed, the list drops every entry for the key. -/
def del {α β : Type} [BEq α] (m : Map α β) (k : α) : Bool × Map α β :=
  (m.any fun p => p.1 == k, m.filter fun p => p.1 != k)

/-- Keyspace states over byte-string keys and values. -/
abbrev KVMap := Map Str Str

/-- File bytes as natural numbers below 256. -/
abbrev Bytes := List Nat

/-- A `size_t` written to the snapshot file: 8 bytes, little endian. -/
def leBytes8 (n : Nat) : Bytes :=
  [n % 256, n / 2 ^ 8 % 256, n / 2 ^ 16 % 256, n / 2 ^ 24 % 256,
   n / 2 ^ 32 % 256, n / 2 ^ 40 % 256, n / 2 ^ 48 % 256, n / 2 ^ 56 % 256]

/-- Bytes of a stored string. -/
def strBytes (s : Str) : Bytes := s.map Char.toNat

/-- One `(key length, key, value length, value)` record as
`persistToDisk` writes it. -/
def recordBytes (p : Str × Str) : Bytes :=
  leBytes8 p.1.length ++ strBytes p.1 ++ leBytes8 p.2.length ++ strBytes p.2

/-- The byte sequence `persistToDisk` attempts to write: every entry's
record in iteration order. -/
def persistBytes (m : KVMap) : Bytes := (m.map recordBytes).flatten

/-- An output file stream with C++ `ofstream` semantics: writes are
unchecked; once the underlying file rejects bytes (`cap` exhausted) the
badbit is set and every later write is a silent no-op — nothing throws. -/
structure OutStream where
  written : Bytes
  cap : Nat
  bad : Bool

/-- `outFile.write(buf, n)` on the stream model. -/
def writeBytes (st : OutStream) (bs : Bytes) : OutStream :=
  if st.bad then st
  else if bs.length ≤ st.cap then
    { st with written := st.written ++ bs, cap := st.cap - bs.length }
  else
    { st with written := st.written ++ bs.take st.cap, cap := 0, bad := true }

/-- `KVStore::persistToDisk`: throws `std::runtime_error` iff opening the
file fails; afterwards it writes each entry's four fields with unchecked
`write` calls (failures only set the badbit) and returns, with the
in-memory map untouched. `openOk` models whether the open succeeded and
`cap` how many bytes the file system accepts before failing. -/
def persistToDisk (openOk : Bool) (cap : Nat) (m : KVMap) :
    Except String (OutStream × KVMap) :=
  if openOk = false then .error "Failed to open file for writing"
  else
    .ok (m.foldl (fun st p =>
      writeBytes (writeBytes (writeBytes (writeBytes st
        (leBytes8 p.1.length)) (strBytes p.1)) (leBytes8 p.2.length)) (strBytes p.2))
      ⟨[], cap, false⟩, m)

/-- An input file stream: remaining bytes plus a good flag; once a read
comes up short the stream fails and later reads are no-ops. -/
structure IStream where
  bytes : Bytes
  good : Bool

/-- `inFile.read(buf, n)` on the stream model: the bytes obtained, the
new stream state, and whether the stream is still good afterwards (the
truth value of `inFile.read(...)` in the loop condition). A short read
delivers what is available and fails the stream. -/
def isRead (st : IStream) (n : Nat) : Bytes × IStream × Bool :=
  if st.good = false then ([], st, false)
  else if n ≤ st.bytes.length then (st.bytes.take n, ⟨st.bytes.drop n, true⟩, true)
  else (st.bytes, ⟨[], false⟩, false)

/-- Little-endian value of a byte list. -/
def fromLE (bs : Bytes) : Nat := bs.foldr (fun b acc => b + 256 * acc) 0

/-- Overwriting the low `bs.length` bytes of the little-endian `size_t`
variable `size` with `bs` (what `read(reinterpret_cast<char*>(&size), n)`
does on a little-endian machine for `n ≤ 8`; for `n > 8` the source
overflows the variable, which this model never exercises). -/
def setLow (size : Nat) (bs : Bytes) : Nat :=
  fromLE bs + 2 ^ (8 * bs.length) * (size / 2 ^ (8 * bs.length))

/-- The `while` loop of `KVStore::loadFromDisk`, translated literally:
the loop condition reads `size > 0` bytes (the Boolean converted to a
count — the source's slip, instead of `sizeof(size)`), the body reads
`size` bytes of key, then `size` bytes into `size` itself, then `size`
bytes of value, and stores the pair; reads on a failed stream are no-ops
and short-read strings keep their `'\0'` fill. `size` starts as the
uninitialized stack variable's value. `none` means the fuel ran out,
i.e. the loop did not terminate within `fuel` iterations. -/
def loadLoop : Nat → Nat → IStream → Map Bytes Bytes → Option (Map Bytes Bytes)
| 0, _, _, _ => none
| fuel + 1, size, st, data =>
  let cnt := if 0 < size then 1 else 0
  match isRead st cnt with
  | (got, st1, readOk) =>
    if readOk = false then some data
    else
      let size1 := setLow size got
      match isRead st1 size1 with
      | (kb, st2, _) =>
        let key := kb ++ List.replicate (size1 - kb.length) 0
        match isRead st2 size1 with
        | (sb, st3, _) =>
          let size2 := setLow size1 sb
          match isRead st3 size2 with
          | (vb, st4, _) =>
            let value := vb ++ List.replicate (size2 - vb.length) 0
            loadLoop fuel size2 st4 (set data key value)

/-- `KVStore::loadFromDisk`: an absent file leaves the keyspace empty;
otherwise the load loop runs on the file's bytes with the uninitialized
`size` variable holding `initSize`. -/
def loadFromDisk (initSize : Nat) (file : Option Bytes) (fuel : Nat) :
    Option (Map Bytes Bytes) :=
  match file with
  | none => some []
  | some bs => loadLoop fuel initSize ⟨bs, true⟩ []

end KVStore

namespace RedisProtocolHandler

open RESPParser

/-- Is the first array element a `BulkString` or `SimpleString`
(the dispatcher's type check). -/
def isStringType : RESPValue → Bool
| .bulkString _ => true
| .simpleString _ => true
| _ => false

/-- `RedisProtocolHandler::process_command`: dispatch one parsed RESP
value against the store, returning the reply and the new store state. -/
def process_command (m : KVStore.KVMap) (v : RESPValue) : Str × KVStore.KVMap :=
  match v with
  | .array elems =>
    match elems with
    | [] => (createErrorResponse ("ERR invalid command".data), m)
    | cmd :: _ =>
      if isStringType cmd then
        let s := cmd.strValueOf
        if s = "GET".data ∧ elems.length = 2 then
          let key := (elems.getD 1 .null).strValueOf
          match KVStore.get m key with
          | some value => (createRESPResponse value, m)
          | none => (createMissingResponse, m)
        else if s = "SET".data ∧ elems.length = 3 then
          let key := (elems.getD 1 .null).strValueOf
          let value := (elems.getD 2 .null).strValueOf
          (createOKResponse, KVStore.set m key value)
        else if s = "DEL".data ∧ elems.length = 2 then
          let key := (elems.getD 1 .null).strValueOf
          let r := KVStore.del m key
          (createDELResponse r.1, r.2)
        else (createErrorResponse ("ERR unknown command".data), m)
      else (createErrorResponse ("ERR invalid command".data), m)
  | _ => (createErrorResponse ("ERR invalid command".data), m)

/-- `RedisProtocolHandler::handle_request`: parse one RESP value from
cursor 0 and dispatch it; any parse exception is caught and converted to
`-ERR <message>\r\n`. The fuel `request.length + 1` always suffices for
the source's recursion. -/
def handle_request (m : KVStore.KVMap) (request : Str) : Str × KVStore.KVMap :=
  match parse (request.length + 1) request 0 with
  | .ok (v, _) => process_command m v
  | .error e => (createErrorResponse ("ERR ".data ++ e.data), m)

end RedisProtocolHandler

/-! ## Keyspace lemmas -/

section KVLemmas

variable {α β : Type} [BEq α] [LawfulBEq α]

theorem get_replace_self (m : KVStore.Map α β) (k : α) (v : β)
    (h : m.any (fun p => p.1 == k) = true) :
    KVStore.get (m.map fun p => if p.1 == k then (k, v) else p) k = some v := by
  induction m with
  | nil => simp at h
  | cons p t ih =>
    by_cases hp : (p.1 == k) = true
    · simp [KVStore.get, hp]
    · have ht : t.any (fun p => p.1 == k) = true := by
        simp only [List.any_cons, hp, Bool.false_or] at h
        exact h
      simpa [KVStore.get, hp] using ih ht

theorem get_append_single (m : KVStore.Map α β) (k : α) (v : β)
    (h : m.any (fun p => p.1 == k) = false) :
    KVStore.get (m ++ [(k, v)]) k = some v := by
  have hnone : m.find? (fun p => p.1 == k) = none := by
    rw [List.find?_eq_none]
    intro x hx
    simp only [List.any_eq_false] at h
    exact fun hc => h x hx hc
  simp [KVStore.get, List.find?_append, hnone]

theorem get_set_self (m : KVStore.Map α β) (k : α) (v : β) :
    KVStore.get (KVStore.set m k v) k = some v := by
  rw [KVStore.set]
  by_cases h : m.any (fun p => p.1 == k) = true
  · rw [if_pos h]
    exact get_replace_self m k v h
  · rw [if_neg h]
    exact get_append_single m k v (Bool.eq_false_iff.mpr h)

theorem get_set_frame (m : KVStore.Map α β) (k k' : α) (v : β) (hne : k' ≠ k) :
    KVStore.get (KVStore.set m k v) k' = KVStore.get m k' := by
  rw [KVStore.set]
  by_cases h : m.any (fun p => p.1 == k) = true
  · rw [if_pos h]
    clear h
    induction m with
    | nil => rfl
    | cons p t ih =>
      by_cases hp : (p.1 == k) = true
      · have hk : (k == k') = false := by
          simp only [beq_eq_false_iff_ne]
          exact fun hc => hne hc.symm
        have hpk : (p.1 == k') = false := by
          simp only [beq_eq_false_iff_ne]
          have : p.1 = k := by simpa using hp
          rw [this]
          exact fun hc => hne hc.symm
        simpa [KVStore.get, hp, hk, hpk] using ih
      · by_cases hq : (p.1 == k') = true
        · simp [KVStore.get, hp, hq]
        · simpa [KVStore.get, hp, hq] using ih
  · rw [if_neg h]
    have hk : (k == k') = false := by
      simp only [beq_eq_false_iff_ne]
      exact fun hc => hne hc.symm
    simp [KVStore.get, List.find?_append, hk]

theorem get_del_self (m : KVStore.Map α β) (k : α) :
    KVStore.get (KVStore.del m k).2 k = none := by
  have hnone : (m.filter fun p => p.1 != k).find? (fun p => p.1 == k) = none := by
    rw [List.find?_eq_none]
    intro x hx
    rw [List.mem_filter] at hx
    simp only [bne_iff_ne, ne_eq] at hx
    simp only [beq_iff_eq]
    exact hx.2
  simp [KVStore.del, KVStore.get, hnone]

theorem get_del_frame (m : KVStore.Map α β) (k k' : α) (hne : k' ≠ k) :
    KVStore.get (KVStore.del m k).2 k' = KVStore.get m k' := by
  rw [KVStore.del]
  induction m with
  | nil => rfl
  | cons p t ih =>
    by_cases hp : (p.1 == k') = true
    · have hkeep : (p.1 != k) = true := by
        simp only [bne_iff_ne, ne_eq]
        have : p.1 = k' := by simpa using hp
        rw [this]
        exact hne
      simp [KVStore.get, hp, hkeep]
    · by_cases hq : (p.1 != k) = true
      · simp [KVStore.get, hq, hp] at ih ⊢
        exact ih
      · simp [KVStore.get, hq, hp] at ih ⊢
        exact ih

omit [LawfulBEq α] in
theorem del_bool_iff (m : KVStore.Map α β) (k : α) :
    (KVStore.del m k).1 = true ↔ KVStore.get m k ≠ none := by
  rw [KVStore.del, KVStore.get]
  constructor
  · intro h
    obtain ⟨x, hx, hpx⟩ := List.any_eq_true.mp h
    cases hf : m.find? (fun p => p.1 == k) with
    | none =>
      rw [List.find?_eq_none] at hf
      exact absurd hpx (hf x hx)
    | some y => simp [hf]
  · intro h
    cases hf : m.find? (fun p => p.1 == k) with
    | none => exact absurd (by simp [hf]) h
    | some y =>
      have hy := List.find?_some hf
      have hmem := List.mem_of_find?_eq_some hf
      exact List.any_eq_true.mpr ⟨y, hmem, hy⟩

end KVLemmas

/-- C2: for every key `k`, value `v` and keyspace state, `set(k, v)` then
`get(k)` yields `v`; `del(k)` then `get(k)` yields Null (absent); and
`del(k)` returns true iff an entry for `k` existed immediately before the
call (in particular false on an absent key). -/
theorem C2_set_get_del (m : KVStore.KVMap) (k v : Str) :
    KVStore.get (KVStore.set m k v) k = some v ∧
    KVStore.get (KVStore.del m k).2 k = none ∧
    ((KVStore.del m k).1 = true ↔ KVStore.get m k ≠ none) :=
  ⟨get_set_self m k v, get_del_self m k, del_bool_iff m k⟩

/-- C9: for distinct keys `k ≠ k'`, `set(k, v)` and `del(k)` leave the
binding of `k'` unchanged, and `get(k)` leaves the entire map unchanged
(it only reads the store). -/
theorem C9_frame (m : KVStore.KVMap) (k k' v : Str) (hne : k ≠ k') :
    KVStore.get (KVStore.set m k v) k' = KVStore.get m k' ∧
    KVStore.get (KVStore.del m k).2 k' = KVStore.get m k' ∧
    (KVStore.getS m k).2 = m :=
  ⟨get_set_frame m k k' v (fun h => hne h.symm),
   get_del_frame m k k' (fun h => hne h.symm), rfl⟩

/-- Witness for C9 at a concrete store and pair of distinct keys. -/
theorem C9_frame_witness :
    KVStore.get (KVStore.set [(['a'], ['b'])] ['a'] ['z']) ['c'] =
      KVStore.get [(['a'], ['b'])] ['c'] ∧
    KVStore.get (KVStore.del [(['a'], ['b'])] ['a']).2 ['c'] =
      KVStore.get [(['a'], ['b'])] ['c'] ∧
    (KVStore.getS ([(['a'], ['b'])] : KVStore.KVMap) ['a']).2 = [(['a'], ['b'])] :=
  C9_frame [(['a'], ['b'])] ['a'] ['c'] ['z'] (by decide)

/-! ## Dispatcher theorems -/

/-- C3: for a well-formed command array, `GET key` yields the bulk reply
with the stored value (or `$-1\r\n` when absent), `SET key value` yields
`+OK\r\n`, and `DEL key` yields `:1\r\n` when the key was deleted and
`:0\r\n` otherwise. -/
theorem C3_command_replies (m : KVStore.KVMap) (k v : Str) :
    (KVStore.get m k = some v →
      RedisProtocolHandler.process_command m
        (.array [.bulkString "GET".data, .bulkString k]) =
        ('$' :: (natDigits v.length ++ crlf ++ v ++ crlf), m)) ∧
    (KVStore.get m k = none →
      RedisProtocolHandler.process_command m
        (.array [.bulkString "GET".data, .bulkString k]) =
        ("$-1\r\n".data, m)) ∧
    (RedisProtocolHandler.process_command m
        (.array [.bulkString "SET".data, .bulkString k, .bulkString v]) =
        ("+OK\r\n".data, KVStore.set m k v)) ∧
    (RedisProtocolHandler.process_command m
        (.array [.bulkString "DEL".data, .bulkString k]) =
        ((if (KVStore.del m k).1 then ":1\r\n".data else ":0\r\n".data),
          (KVStore.del m k).2)) := by
  refine ⟨?_, ?_, ?_, ?_⟩
  · intro hget
    simp [RedisProtocolHandler.process_command, RedisProtocolHandler.isStringType,
      RESPValue.strValueOf, hget, RESPParser.createRESPResponse]
  · intro hget
    simp [RedisProtocolHandler.process_command, RedisProtocolHandler.isStringType,
      RESPValue.strValueOf, hget, RESPParser.createMissingResponse]
  · simp [RedisProtocolHandler.process_command, RedisProtocolHandler.isStringType,
      RESPValue.strValueOf, RESPParser.createOKResponse]
  · simp [RedisProtocolHandler.process_command, RedisProtocolHandler.isStringType,
      RESPValue.strValueOf, RESPParser.createDELResponse]

/-- Witness for C3 at a concrete store, discharging both `get` hypotheses. -/
theorem C3_command_replies_witness :
    RedisProtocolHandler.process_command [(['f'], ['b'])]
      (.array [.bulkString "GET".data, .bulkString ['f']]) =
      ('$' :: (natDigits 1 ++ crlf ++ ['b'] ++ crlf), [(['f'], ['b'])]) ∧
    RedisProtocolHandler.process_command ([] : KVStore.KVMap)
      (.array [.bulkString "GET".data, .bulkString ['f']]) =
      ("$-1\r\n".data, []) :=
  ⟨((C3_command_replies [(['f'], ['b'])] ['f'] ['b']).1) (by rfl),
   ((C3_command_replies ([] : KVStore.KVMap) ['f'] ['b']).2.1) (by rfl)⟩

/-- C6: a command whose first element is a simple or bulk string but whose
name is `GET`/`SET`/`DEL` with the wrong argument count, or whose name is
any other string, is answered with exactly `-ERR unknown command\r\n`
(the dispatcher does not distinguish the two cases). -/
theorem C6_unknown_command (m : KVStore.KVMap) (hd : RESPValue)
    (rest : List RESPValue)
    (hstr : RedisProtocolHandler.isStringType hd = true)
    (h : ((hd.strValueOf = "GET".data ∨ hd.strValueOf = "DEL".data) ∧
            rest.length + 1 ≠ 2) ∨
         (hd.strValueOf = "SET".data ∧ rest.length + 1 ≠ 3) ∨
         (hd.strValueOf ≠ "GET".data ∧ hd.strValueOf ≠ "SET".data ∧
            hd.strValueOf ≠ "DEL".data)) :
    RedisProtocolHandler.process_command m (.array (hd :: rest)) =
      ('-' :: ("ERR unknown command".data ++ crlf), m) := by
  have hGS : "GET".data ≠ "SET".data := by decide
  have hGD : "GET".data ≠ "DEL".data := by decide
  have hSD : "SET".data ≠ "DEL".data := by decide
  have h1 : ¬(hd.strValueOf = "GET".data ∧ (hd :: rest).length = 2) := by
    rintro ⟨he, hlen⟩
    simp only [List.length_cons] at hlen
    rcases h with ⟨hg | hd', hn⟩ | ⟨hs, hn⟩ | ⟨hg, _, _⟩
    · exact hn hlen
    · rw [he] at hd'; exact hGD hd'
    · rw [he] at hs; exact hGS hs
    · exact hg he
  have h2 : ¬(hd.strValueOf = "SET".data ∧ (hd :: rest).length = 3) := by
    rintro ⟨he, hlen⟩
    simp only [List.length_cons] at hlen
    rcases h with ⟨hg | hd', _⟩ | ⟨_, hn⟩ | ⟨_, hs, _⟩
    · rw [he] at hg; exact hGS hg.symm
    · rw [he] at hd'; exact hSD hd'
    · exact hn hlen
    · exact hs he
  have h3 : ¬(hd.strValueOf = "DEL".data ∧ (hd :: rest).length = 2) := by
    rintro ⟨he, hlen⟩
    simp only [List.length_cons] at hlen
    rcases h with ⟨hg | hd', hn⟩ | ⟨hs, _⟩ | ⟨_, _, hdel⟩
    · rw [he] at hg; exact hGD hg.symm
    · exact hn hlen
    · rw [he] at hs; exact hSD hs.symm
    · exact hdel he
  simp only [RedisProtocolHandler.process_command, hstr, if_true,
    RESPParser.createErrorResponse, if_neg h1, if_neg h2, if_neg h3]

/-- Witness for C6: `PING` (unknown) on an empty store. -/
theorem C6_unknown_command_witness :
    RedisProtocolHandler.process_command ([] : KVStore.KVMap)
      (.array [.bulkString "PING".data]) =
      ('-' :: ("ERR unknown command".data ++ crlf), []) :=
  C6_unknown_command [] (.bulkString "PING".data) [] (by rfl)
    (.inr (.inr (by refine ⟨?_, ?_, ?_⟩ <;> decide)))

/-! ## Snapshot write path (C8) -/

/-- C8 counterexample: with the file opened successfully but the file
system rejecting every byte (capacity 0, so the very first `write` fails
and sets the badbit), `persistToDisk` still returns normally — no
`IOError` is raised for this file system error, refuting "fails with an
IOError on any file system error". The map is returned untouched and the
partial (here: empty) file remains. -/
theorem C8_counterexample :
    KVStore.persistToDisk true 0 [(['a'], ['b'])] =
      .ok (⟨[], 0, true⟩, [(['a'], ['b'])]) := by
  rfl

/-- C8 amended: `persistToDisk` fails (with the `runtime_error` from the
source) exactly when opening the file fails; errors on the subsequent
writes are silently swallowed (the stream merely goes bad and a partial
file may remain); in every case the in-memory map is unchanged. -/
theorem C8_persist_amended (openOk : Bool) (cap : Nat) (m : KVStore.KVMap) :
    (openOk = false →
      KVStore.persistToDisk openOk cap m = .error "Failed to open file for writing") ∧
    (∀ st m2, KVStore.persistToDisk openOk cap m = .ok (st, m2) → m2 = m) := by
  constructor
  · intro h
    simp [KVStore.persistToDisk, h]
  · intro st m2 h
    rw [KVStore.persistToDisk] at h
    by_cases ho : openOk = false
    · simp [ho] at h
    · simp [ho] at h
      exact h.2.symm

/-- Witness for C8's amended statement, discharging both hypotheses at
concrete inputs. -/
theorem C8_persist_amended_witness :
    KVStore.persistToDisk false 0 [(['a'], ['b'])] =
      .error "Failed to open file for writing" ∧
    ([(['a'], ['b'])] : KVStore.KVMap) = [(['a'], ['b'])] :=
  ⟨(C8_persist_amended false 0 [(['a'], ['b'])]).1 rfl,
   (C8_persist_amended true 0 [(['a'], ['b'])]).2 ⟨[], 0, true⟩ [(['a'], ['b'])] rfl⟩

/-! ## Snapshot read path (C1) -/

/-- Absence of the snapshot file leaves the keyspace empty (the one part
of the restore contract the source does honor). -/
theorem loadFromDisk_absent (initSize fuel : Nat) :
    KVStore.loadFromDisk initSize none fuel = some [] := rfl

/-- One iteration of the load loop with `size = 0`: the condition reads
`size > 0 = 0` bytes, which succeeds without advancing the stream, and
the body stores the empty pair — the state repeats forever. -/
theorem loadLoop_zero_step (f : Nat) (bs : KVStore.Bytes)
    (data : KVStore.Map KVStore.Bytes KVStore.Bytes) :
    KVStore.loadLoop (f + 1) 0 ⟨bs, true⟩ data =
      KVStore.loadLoop f 0 ⟨bs, true⟩ (KVStore.set data [] []) := by
  rw [KVStore.loadLoop]
  simp [KVStore.isRead, KVStore.setLow, KVStore.fromLE]

/-- C1 divergence witness: on the very snapshot its own `persistToDisk`
writes for the store `{("a", "b")}`, the restore loop of `loadFromDisk`
never terminates (for every fuel bound it fails to finish) when the
uninitialized `size` variable starts at 0: the loop condition reads
`size > 0` — that is, zero — bytes instead of `sizeof(size)`, so the
stream never advances and never fails, and the loop spins forever
re-inserting the empty pair. The snapshot/restore round trip claimed by
the spec therefore does not hold on the source. -/
theorem C1_restore_diverges :
    ∀ fuel, KVStore.loadFromDisk 0
      (some (KVStore.persistBytes [(['a'], ['b'])])) fuel = none := by
  intro fuel
  rw [KVStore.loadFromDisk]
  generalize KVStore.persistBytes [(['a'], ['b'])] = bs
  suffices h : ∀ fuel bs (data : KVStore.Map KVStore.Bytes KVStore.Bytes),
      KVStore.loadLoop fuel 0 ⟨bs, true⟩ data = none from h fuel bs []
  intro fuel
  induction fuel with
  | zero => intro bs data; rfl
  | succ f ih =>
    intro bs data
    exact Eq.trans (loadLoop_zero_step f bs data) (ih bs _)

/-! ## Error recovery in the dispatcher (C7) -/

/-- C7: whenever RESP parsing of a request fails with message `e`, the
dispatcher catches the exception and answers with the single reply
`-ERR <e>\r\n` — beginning with `-ERR ` and ending with CRLF — leaving
the store untouched; the failure never propagates to the caller (the
handler is a total function into replies). -/
theorem C7_parse_error_reply (m : KVStore.KVMap) (req : Str) (e : String)
    (h : RESPParser.parse (req.length + 1) req 0 = .error e) :
    RedisProtocolHandler.handle_request m req =
      ("-ERR ".data ++ e.data ++ crlf, m) := by
  simp only [RedisProtocolHandler.handle_request, h, RESPParser.createErrorResponse]
  simp

/-- Witness for C7: a request whose first byte is no RESP prefix. -/
theorem C7_parse_error_reply_witness :
    RedisProtocolHandler.handle_request [] ['x'] =
      ("-ERR ".data ++ "Invalid RESP prefix: 'x'".data ++ crlf, []) :=
  C7_parse_error_reply [] ['x'] "Invalid RESP prefix: 'x'" (by rfl)

/-! ## Parser failure conditions (C4) -/

theorem findCRLF_nil : findCRLF [] = none := rfl

theorem findCRLF_single (a : Char) : findCRLF [a] = none := rfl

theorem findCRLF_cons_cons (a b : Char) (t : List Char) :
    findCRLF (a :: b :: t) =
      if a = '\r' ∧ b = '\n' then some 0 else (findCRLF (b :: t)).map (· + 1) := rfl

theorem findCRLF_some_lt (l : List Char) (i : Nat) (h : findCRLF l = some i) :
    i + 1 < l.length := by
  induction l generalizing i with
  | nil => simp [findCRLF_nil] at h
  | cons a rest ih =>
    cases rest with
    | nil => simp [findCRLF_single] at h
    | cons b t =>
      rw [findCRLF_cons_cons] at h
      by_cases hab : a = '\r' ∧ b = '\n'
      · rw [if_pos hab] at h
        cases h
        simp
      · rw [if_neg hab] at h
        cases hj : findCRLF (b :: t) with
        | none => rw [hj] at h; simp at h
        | some j =>
          rw [hj] at h
          simp at h
          have := ih j hj
          simp only [List.length_cons] at this ⊢
          omega

theorem find2_some_bounds (input : Str) (pos e : Nat) (h : find2 input pos = some e) :
    pos ≤ e ∧ e + 1 < input.length := by
  rw [find2] at h
  cases hf : findCRLF (input.drop pos) with
  | none => rw [hf] at h; simp at h
  | some i =>
    rw [hf] at h
    simp at h
    have hlt := findCRLF_some_lt _ _ hf
    rw [List.length_drop] at hlt
    omega

theorem fromCharsI64_range (f : Str) (L : Int) (h : fromCharsI64 f = some L) :
    -(2 ^ 63) ≤ L ∧ L < 2 ^ 63 := by
  have ei : (2 : Int) ^ 63 = 9223372036854775808 := by norm_num
  have en : (2 : Nat) ^ 63 = 9223372036854775808 := by norm_num
  rw [fromCharsI64] at h
  by_cases h1 : f = []
  · rw [if_pos h1] at h; cases h
  rw [if_neg h1] at h
  by_cases h2 : f.headD ' ' = '-'
  · rw [if_pos h2] at h
    by_cases h3 : f.tail = []
    · rw [if_pos h3] at h; cases h
    rw [if_neg h3] at h
    by_cases h4 : f.tail.all isDigitChar = true
    · rw [if_pos h4] at h
      by_cases h5 : decVal f.tail ≤ 2 ^ 63
      · rw [if_pos h5] at h
        injection h with h'
        rw [en] at h5
        omega
      · rw [if_neg h5] at h; cases h
    · rw [if_neg h4] at h; cases h
  · rw [if_neg h2] at h
    by_cases h4 : f.all isDigitChar = true
    · rw [if_pos h4] at h
      by_cases h5 : decVal f < 2 ^ 63
      · rw [if_pos h5] at h
        injection h with h'
        rw [en] at h5
        omega
      · rw [if_neg h5] at h; cases h
    · rw [if_neg h4] at h; cases h

/-- C4: `parse` raises a protocol error whenever: the cursor is at
end-of-input; the first byte is none of `+ - : $ *`; the value's line is
not CRLF-terminated; an integer or length field is not a valid signed
decimal consuming the whole field; a bulk string's declared body plus
trailing CRLF would exceed the buffer; or the byte at `cursor + n` is
not CR or the following byte not LF. The buffer-length bound reflects
the platform's `basic_string::max_size`. -/
theorem C4_parse_failures (input : Str) (pos fuel : Nat)
    (hlen : input.length < 2 ^ 62)
    (h :
      (pos ≥ input.length) ∨
      (pos < input.length ∧ chAt input pos ∉ (['+', '-', ':', '$', '*'] : List Char)) ∨
      (pos < input.length ∧ chAt input pos ∈ (['+', '-', ':', '$', '*'] : List Char) ∧
        find2 input (pos + 1) = none) ∨
      (pos < input.length ∧ chAt input pos ∈ ([':', '$', '*'] : List Char) ∧
        (∃ e, find2 input (pos + 1) = some e ∧
          fromCharsI64 (subStr input (pos + 1) e) = none)) ∨
      (pos < input.length ∧ chAt input pos = '$' ∧
        (∃ e L, find2 input (pos + 1) = some e ∧
          fromCharsI64 (subStr input (pos + 1) e) = some L ∧ 0 ≤ L ∧
          e + 2 + L.toNat + 2 > input.length)) ∨
      (pos < input.length ∧ chAt input pos = '$' ∧
        (∃ e L, find2 input (pos + 1) = some e ∧
          fromCharsI64 (subStr input (pos + 1) e) = some L ∧ 0 ≤ L ∧
          e + 2 + L.toNat + 2 ≤ input.length ∧
          (chAt input (e + 2 + L.toNat) ≠ '\r' ∨
            chAt input (e + 2 + L.toNat + 1) ≠ '\n')))) :
    ∃ msg, RESPParser.parse (fuel + 1) input pos = .error msg := by
  have e64 : (2 : Nat) ^ 64 = 18446744073709551616 := by norm_num
  have e63 : (2 : Nat) ^ 63 = 9223372036854775808 := by norm_num
  have e62 : (2 : Nat) ^ 62 = 4611686018427387904 := by norm_num
  have ei63 : (2 : Int) ^ 63 = 9223372036854775808 := by norm_num
  have ei64 : (2 : Int) ^ 64 = 18446744073709551616 := by norm_num
  rcases h with h1 | ⟨hp, h2⟩ | ⟨hp, h3, hf⟩ | ⟨hp, h4, e, hfind, hfc⟩ |
    ⟨hp, h5, e, L, hfind, hfc, hL0, hover⟩ |
    ⟨hp, h6, e, L, hfind, hfc, hL0, hfit, hterm⟩
  · rw [RESPParser.parse, if_pos h1]
    exact ⟨_, rfl⟩
  · simp only [List.mem_cons, List.not_mem_nil, or_false, not_or] at h2
    obtain ⟨hc1, hc2, hc3, hc4, hc5⟩ := h2
    rw [RESPParser.parse, if_neg (by omega)]
    refine ⟨"Invalid RESP prefix: '" ++ String.singleton (chAt input pos) ++ "'", ?_⟩
    simp [hc1, hc2, hc3, hc4, hc5]
  · simp only [List.mem_cons, List.not_mem_nil, or_false] at h3
    rw [RESPParser.parse, if_neg (by omega)]
    rcases h3 with hc | hc | hc | hc | hc
    · exact ⟨"Unterminated simple string",
        by simp [hc, RESPParser.parseSimpleString, hf]⟩
    · exact ⟨"Unterminated error", by simp [hc, RESPParser.parseErrorVal, hf]⟩
    · exact ⟨"Unterminated integer", by simp [hc, RESPParser.parseInteger, hf]⟩
    · exact ⟨"Unterminated bulk string length",
        by simp [hc, RESPParser.parseBulkString, hf]⟩
    · exact ⟨"Unterminated array length",
        by simp [hc, RESPParser.parseArrayWith, hf]⟩
  · simp only [List.mem_cons, List.not_mem_nil, or_false] at h4
    rw [RESPParser.parse, if_neg (by omega)]
    rcases h4 with hc | hc | hc
    · exact ⟨"Invalid integer format",
        by simp [hc, RESPParser.parseInteger, hfind, hfc]⟩
    · exact ⟨"Invalid bulk string length",
        by simp [hc, RESPParser.parseBulkString, hfind, hfc]⟩
    · exact ⟨"Invalid array length",
        by simp [hc, RESPParser.parseArrayWith, hfind, hfc]⟩
  · obtain ⟨hpe, hee⟩ := find2_some_bounds input (pos + 1) e hfind
    obtain ⟨hlo, hhi⟩ := fromCharsI64_range _ _ hfc
    have hLt : L.toNat < 2 ^ 63 := by omega
    have hne1 : L ≠ -1 := by omega
    have hmodid : (L % (2 ^ 64 : Int)).toNat = L.toNat := by
      rw [Int.emod_eq_of_lt hL0 (by omega)]
    have hsum : e + 2 + L.toNat + 2 < 2 ^ 64 := by omega
    rw [RESPParser.parse, if_neg (by omega)]
    refine ⟨"Incomplete bulk string", ?_⟩
    simp [h5, RESPParser.parseBulkString, hfind, hfc, hne1]
    rw [ei64] at hmodid
    rw [e64] at hsum
    rw [hmodid, Nat.mod_eq_of_lt hsum]
    intro hle
    exact absurd hover (by omega)
  · obtain ⟨hpe, hee⟩ := find2_some_bounds input (pos + 1) e hfind
    obtain ⟨hlo, hhi⟩ := fromCharsI64_range _ _ hfc
    have hLt : L.toNat < 2 ^ 63 := by omega
    have hne1 : L ≠ -1 := by omega
    have hmodid : (L % (2 ^ 64 : Int)).toNat = L.toNat := by
      rw [Int.emod_eq_of_lt hL0 (by omega)]
    have hsum : e + 2 + L.toNat + 2 < 2 ^ 64 := by omega
    have hsum0 : e + 2 + L.toNat < 2 ^ 64 := by omega
    have hsum1 : e + 2 + L.toNat + 1 < 2 ^ 64 := by omega
    have hnogt : ¬(e + 2 + L.toNat + 2 > input.length) := by omega
    rw [RESPParser.parse, if_neg (by omega)]
    refine ⟨"Invalid bulk string terminator", ?_⟩
    simp [h6, RESPParser.parseBulkString, hfind, hfc, hne1]
    rw [ei64] at hmodid
    rw [e64] at hsum hsum0 hsum1
    rw [hmodid, Nat.mod_eq_of_lt hsum, Nat.mod_eq_of_lt hsum0,
      Nat.mod_eq_of_lt hsum1]
    rw [if_neg (by omega), if_pos hterm]

/-- Witness for C4: the empty buffer with the cursor at end-of-input. -/
theorem C4_parse_failures_witness :
    ∃ msg, RESPParser.parse 1 [] 0 = .error msg :=
  C4_parse_failures [] 0 0 (by norm_num) (.inl (by simp))

/-! ## Bulk-reply round trip (C5) -/

theorem isDigit_digitChar (n : Nat) (h : n < 10) :
    isDigitChar (digitChar n) = true := by
  interval_cases n <;> decide

theorem digitVal_digitChar (n : Nat) (h : n < 10) : digitVal (digitChar n) = n := by
  interval_cases n <;> decide

theorem digit_ne_cr (c : Char) (h : isDigitChar c = true) : c ≠ '\r' := by
  intro hc
  rw [hc] at h
  simp [isDigitChar] at h

theorem digit_ne_minus (c : Char) (h : isDigitChar c = true) : c ≠ '-' := by
  intro hc
  rw [hc] at h
  simp [isDigitChar] at h

theorem decVal_append_single (ds : Str) (c : Char) :
    decVal (ds ++ [c]) = 10 * decVal ds + digitVal c := by
  simp [decVal, List.foldl_append]

theorem natDigits_spec (n : Nat) :
    natDigits n ≠ [] ∧ (∀ c ∈ natDigits n, isDigitChar c = true) ∧
      decVal (natDigits n) = n := by
  induction n using Nat.strong_induction_on with
  | _ n ih =>
    rw [natDigits]
    by_cases h : n < 10
    · rw [if_pos h]
      refine ⟨by simp, ?_, ?_⟩
      · intro c hc
        simp only [List.mem_singleton] at hc
        rw [hc]
        exact isDigit_digitChar n h
      · simp [decVal, digitVal_digitChar n h]
    · rw [if_neg h]
      obtain ⟨h1, h2, h3⟩ := ih (n / 10) (Nat.div_lt_self (by omega) (by omega))
      refine ⟨by simp, ?_, ?_⟩
      · intro c hc
        rcases List.mem_append.mp hc with hm | hm
        · exact h2 c hm
        · simp only [List.mem_singleton] at hm
          rw [hm]
          exact isDigit_digitChar _ (Nat.mod_lt _ (by omega))
      · rw [decVal_append_single, h3, digitVal_digitChar _ (Nat.mod_lt _ (by omega))]
        omega

theorem natDigits_length_le (n : Nat) : (natDigits n).length ≤ n + 1 := by
  induction n using Nat.strong_induction_on with
  | _ n ih =>
    rw [natDigits]
    by_cases h : n < 10
    · rw [if_pos h]
      simp
    · rw [if_neg h]
      have := ih (n / 10) (Nat.div_lt_self (by omega) (by omega))
      simp only [List.length_append, List.length_singleton]
      omega

theorem natDigits_length_le_pow (k : Nat) :
    ∀ n, n < 10 ^ (k + 1) → (natDigits n).length ≤ k + 1 := by
  induction k with
  | zero =>
    intro n h
    rw [natDigits, if_pos (by omega)]
    simp
  | succ k ih =>
    intro n h
    rw [natDigits]
    by_cases h10 : n < 10
    · rw [if_pos h10]
      simp
    · rw [if_neg h10]
      simp only [List.length_append, List.length_singleton]
      have hdiv : n / 10 < 10 ^ (k + 1) := by
        refine Nat.div_lt_of_lt_mul ?_
        calc n < 10 ^ (k + 1 + 1) := h
        _ = 10 * 10 ^ (k + 1) := by ring
      have := ih (n / 10) hdiv
      omega

theorem fromCharsI64_natDigits (n : Nat) (h : n < 2 ^ 63) :
    fromCharsI64 (natDigits n) = some (n : Int) := by
  obtain ⟨hne, hdig, hval⟩ := natDigits_spec n
  rw [fromCharsI64, if_neg hne]
  have hhead : (natDigits n).headD ' ' ≠ '-' := by
    cases hd : natDigits n with
    | nil => exact absurd hd hne
    | cons c cs =>
      simp only [List.headD_cons]
      exact digit_ne_minus c (hdig c (hd ▸ List.mem_cons_self c cs))
  rw [if_neg hhead]
  have hall : (natDigits n).all isDigitChar = true := List.all_eq_true.mpr hdig
  rw [if_pos hall, hval, if_pos h]

theorem findCRLF_no_cr_before (ds rest : List Char) (h : ∀ c ∈ ds, c ≠ '\r') :
    findCRLF (ds ++ '\r' :: '\n' :: rest) = some ds.length := by
  induction ds with
  | nil =>
    rw [List.nil_append, findCRLF_cons_cons, if_pos ⟨rfl, rfl⟩]
    rfl
  | cons a t ih =>
    have ha := h a (List.mem_cons_self a t)
    have htail : ∀ c ∈ t, c ≠ '\r' := fun c hc => h c (List.mem_cons_of_mem a hc)
    cases t with
    | nil =>
      rw [List.cons_append, List.nil_append, findCRLF_cons_cons,
        if_neg (by intro hc; exact ha hc.1), findCRLF_cons_cons, if_pos ⟨rfl, rfl⟩]
      rfl
    | cons b t2 =>
      rw [List.cons_append, List.cons_append, findCRLF_cons_cons,
        if_neg (by intro hc; exact ha hc.1), ← List.cons_append, ih htail]
      rfl

/-- C5: encoding any byte string as a bulk reply and parsing the result
from cursor 0 succeeds, yields a RESP BulkString whose `strValue` is the
original string, and advances the cursor past exactly the whole
encoding. The length bound is the signed-64-bit cap on bulk lengths. -/
theorem C5_bulk_roundtrip (v : Str) (fuel : Nat) (hv : v.length < 2 ^ 63) :
    RESPParser.parse (fuel + 1) (RESPParser.createRESPResponse v) 0 =
      .ok (.bulkString v, (RESPParser.createRESPResponse v).length) := by
  have e63 : (2 : Nat) ^ 63 = 9223372036854775808 := by norm_num
  obtain ⟨hne, hdig, hval⟩ := natDigits_spec v.length
  set L := v.length with hL
  have hv9 : L < 9223372036854775808 := e63 ▸ hv
  set D := natDigits L with hD
  set d := D.length with hd
  have hdlen : d ≤ 19 := by
    refine natDigits_length_le_pow 18 L ?_
    rw [show (10 : Nat) ^ (18 + 1) = 10000000000000000000 from by norm_num]
    omega
  set input := RESPParser.createRESPResponse v with hinp
  have hinput : input = '$' :: (D ++ ('\r' :: '\n' :: (v ++ crlf))) := by
    rw [hinp, RESPParser.createRESPResponse]
    simp [crlf, List.append_assoc]
  have hlen : input.length = d + L + 5 := by
    rw [hinput]
    simp [crlf]
    omega
  have hdrop1 : input.drop 1 = D ++ ('\r' :: '\n' :: (v ++ crlf)) := by
    rw [hinput]
    rfl
  have hfind : find2 input 1 = some (d + 1) := by
    rw [find2, hdrop1,
      findCRLF_no_cr_before D _ (fun c hc => digit_ne_cr c (hdig c hc))]
    rfl
  have hsub : subStr input 1 (d + 1) = D := by
    rw [subStr, hdrop1, Nat.add_sub_cancel]
    exact List.take_left' rfl
  have hfc : fromCharsI64 (subStr input 1 (d + 1)) = some (L : Int) := by
    rw [hsub, hD]
    exact fromCharsI64_natDigits L (by omega)
  have hne1 : ((L : Nat) : Int) ≠ -1 := by omega
  have hmodid : (((L : Nat) : Int) % (18446744073709551616 : Int)).toNat = L := by
    rw [Int.emod_eq_of_lt (by positivity) (by exact_mod_cast (by omega : L < 18446744073709551616))]
    exact Int.toNat_natCast L
  have hdropd3 : input.drop (d + 3) = v ++ crlf := by
    have t1 : (input.drop 1).drop (d + 2) = input.drop (1 + (d + 2)) :=
      List.drop_drop (d + 2) 1 input
    have t2 : (D ++ ('\r' :: '\n' :: (v ++ crlf))).drop (d + 2) = v ++ crlf := by
      rw [show D ++ ('\r' :: '\n' :: (v ++ crlf)) =
        (D ++ ['\r', '\n']) ++ (v ++ crlf) from by simp]
      exact List.drop_left' (by simp [← hd])
    rw [show d + 3 = 1 + (d + 2) from by omega, ← t1, hdrop1, t2]
  have hdrop2 : input.drop (d + 3 + L) = crlf := by
    have t1 : (input.drop (d + 3)).drop L = input.drop (d + 3 + L) :=
      List.drop_drop L (d + 3) input
    rw [← t1, hdropd3]
    exact List.drop_left' hL.symm
  have hchr : chAt input (d + 3 + L) = '\r' := by
    rw [chAt, hdrop2]
    rfl
  have hdrop3 : input.drop (d + 3 + L + 1) = ['\n'] := by
    have t1 : (input.drop (d + 3 + L)).drop 1 = input.drop (d + 3 + L + 1) :=
      List.drop_drop 1 (d + 3 + L) input
    rw [← t1, hdrop2]
    rfl
  have hchn : chAt input (d + 3 + L + 1) = '\n' := by
    rw [chAt, hdrop3]
    rfl
  have hsub2 : subStr input (d + 3) (d + 3 + L) = v := by
    rw [subStr, hdropd3, Nat.add_sub_cancel_left]
    exact List.take_left' hL.symm
  have hm0 : (d + 1 + 2 + L) % 18446744073709551616 = d + 3 + L := by omega
  have hm1 : (d + 1 + 2 + L + 1) % 18446744073709551616 = d + 3 + L + 1 := by omega
  have hm2 : (d + 1 + 2 + L + 2) % 18446744073709551616 = d + L + 5 := by omega
  have hmax : ¬(9223372036854775808 ≤ L) := by omega
  rw [RESPParser.parse, if_neg (by omega)]
  have hch0 : chAt input 0 = '$' := by
    rw [chAt, List.drop_zero, hinput]
    rfl
  simp [hch0, RESPParser.parseBulkString, hfind, hfc, hne1, hmodid, hm0, hm1,
    hm2, hchr, hchn, hsub2, hmax, hlen]

/-- Witness for C5 at the one-byte value `b`. -/
theorem C5_bulk_roundtrip_witness :
    RESPParser.parse 1 (RESPParser.createRESPResponse ['b']) 0 =
      .ok (.bulkString ['b'], (RESPParser.createRESPResponse ['b']).length) :=
  C5_bulk_roundtrip ['b'] 0 (by norm_num)

/-! ## Parser locality (C10) -/

theorem drop_append_le {α : Type} (l r : List α) :
    ∀ n, n ≤ l.length → (l ++ r).drop n = l.drop n ++ r := by
  induction l with
  | nil =>
    intro n h
    have hn : n = 0 := by simpa using h
    rw [hn]
    simp
  | cons a t ih =>
    intro n h
    cases n with
    | zero => simp
    | succ m =>
      simp only [List.cons_append, List.drop_succ_cons]
      exact ih m (by simpa using h)

theorem take_append_le {α : Type} (l r : List α) :
    ∀ n, n ≤ l.length → (l ++ r).take n = l.take n := by
  induction l with
  | nil =>
    intro n h
    have hn : n = 0 := by simpa using h
    rw [hn]
    simp
  | cons a t ih =>
    intro n h
    cases n with
    | zero => simp
    | succ m =>
      simp only [List.cons_append, List.take_succ_cons]
      rw [ih m (by simpa using h)]

theorem chAt_append (l r : List Char) (n : Nat) (h : n < l.length) :
    chAt (l ++ r) n = chAt l n := by
  rw [chAt, chAt, drop_append_le l r n (Nat.le_of_lt h)]
  cases hd : l.drop n with
  | nil =>
    have := congrArg List.length hd
    simp only [List.length_drop, List.length_nil] at this
    omega
  | cons a t => simp [hd]

theorem subStr_append (l r : List Char) (a b : Nat) (ha : a ≤ l.length)
    (hb : b ≤ l.length) : subStr (l ++ r) a b = subStr l a b := by
  rw [subStr, subStr, drop_append_le l r a ha,
    take_append_le _ _ _ (by simp only [List.length_drop]; omega)]

theorem findCRLF_append_some (r : List Char) :
    ∀ l i, findCRLF l = some i → findCRLF (l ++ r) = some i := by
  intro l
  induction l with
  | nil => intro i h; simp [findCRLF_nil] at h
  | cons a t ih =>
    intro i h
    cases t with
    | nil => simp [findCRLF_single] at h
    | cons b t2 =>
      rw [findCRLF_cons_cons] at h
      rw [List.cons_append, List.cons_append, findCRLF_cons_cons]
      by_cases hab : a = '\r' ∧ b = '\n'
      · rw [if_pos hab] at h ⊢
        exact h
      · rw [if_neg hab] at h ⊢
        cases hj : findCRLF (b :: t2) with
        | none => rw [hj] at h; cases h
        | some j =>
          rw [hj] at h
          rw [← List.cons_append, ih j hj]
          exact h

theorem find2_append (l r : List Char) (pos e : Nat) (hp : pos ≤ l.length)
    (h : find2 l pos = some e) : find2 (l ++ r) pos = some e := by
  rw [find2] at h ⊢
  rw [drop_append_le l r pos hp]
  cases hf : findCRLF (l.drop pos) with
  | none => rw [hf] at h; cases h
  | some i =>
    rw [findCRLF_append_some r _ i hf]
    rw [hf] at h
    exact h

theorem parseElemsWith_congr_ok (input : Str)
    (p p2 : Str → Nat → Except String (RESPValue × Nat))
    (hp : ∀ pos r, p input pos = .ok r → p2 input pos = .ok r) :
    ∀ n pos r, RESPParser.parseElemsWith p n input pos = .ok r →
      RESPParser.parseElemsWith p2 n input pos = .ok r := by
  intro n
  induction n with
  | zero =>
    intro pos r h
    simpa [RESPParser.parseElemsWith] using h
  | succ n ih =>
    intro pos r h
    rw [RESPParser.parseElemsWith] at h
    cases h1 : p input pos with
    | error e =>
      rw [h1] at h
      cases h
    | ok vp =>
      obtain ⟨v, pos2⟩ := vp
      simp only [h1] at h
      cases h2 : RESPParser.parseElemsWith p n input pos2 with
      | error e =>
        rw [h2] at h
        cases h
      | ok sp =>
        obtain ⟨vs, pos3⟩ := sp
        simp only [h2] at h
        rw [RESPParser.parseElemsWith]
        simp only [hp _ _ h1, ih _ _ h2]
        exact h

theorem parseArrayWith_congr_ok (input : Str) (pos : Nat) (r : RESPValue × Nat)
    (p p2 : Str → Nat → Except String (RESPValue × Nat))
    (hp : ∀ pos2 r2, p input pos2 = .ok r2 → p2 input pos2 = .ok r2)
    (h : RESPParser.parseArrayWith p input pos = .ok r) :
    RESPParser.parseArrayWith p2 input pos = .ok r := by
  rw [RESPParser.parseArrayWith] at h ⊢
  cases hf : find2 input pos with
  | none =>
    rw [hf] at h
    cases h
  | some lenEnd =>
    simp only [hf] at h ⊢
    cases hfc : fromCharsI64 (subStr input pos lenEnd) with
    | none =>
      rw [hfc] at h
      cases h
    | some L =>
      simp only [hfc] at h ⊢
      by_cases hL1 : L = -1
      · simp only [if_pos hL1] at h ⊢
        exact h
      · simp only [if_neg hL1] at h ⊢
        by_cases hL0 : L < 0
        · simp only [if_pos hL0] at h
          cases h
        · simp only [if_neg hL0] at h ⊢
          cases he : RESPParser.parseElemsWith p L.toNat input (lenEnd + 2) with
          | error e =>
            rw [he] at h
            cases h
          | ok s =>
            obtain ⟨vs, p3⟩ := s
            simp only [he] at h
            simp only [parseElemsWith_congr_ok input p p2 hp _ _ _ he]
            exact h


theorem parse_mono : ∀ fuel fuel' (input : Str) (pos : Nat) (r : RESPValue × Nat),
    fuel ≤ fuel' → RESPParser.parse fuel input pos = .ok r →
    RESPParser.parse fuel' input pos = .ok r := by
  intro fuel
  induction fuel with
  | zero =>
    intro fuel' input pos r hle h
    rw [RESPParser.parse] at h
    cases h
  | succ fuel ih =>
    intro fuel' input pos r hle h
    obtain ⟨f2, rfl⟩ : ∃ f2, fuel' = f2 + 1 := ⟨fuel' - 1, by omega⟩
    rw [RESPParser.parse] at h ⊢
    by_cases hpos : pos ≥ input.length
    · rw [if_pos hpos] at h
      cases h
    rw [if_neg hpos] at h ⊢
    by_cases hc1 : chAt input pos = '+'
    · simp only [hc1, reduceIte] at h ⊢
      exact h
    by_cases hc2 : chAt input pos = '-'
    · simp only [hc1, hc2, reduceIte] at h ⊢
      exact h
    by_cases hc3 : chAt input pos = ':'
    · simp only [hc1, hc2, hc3, reduceIte] at h ⊢
      exact h
    by_cases hc4 : chAt input pos = '$'
    · simp only [hc1, hc2, hc3, hc4, reduceIte] at h ⊢
      exact h
    by_cases hc5 : chAt input pos = '*'
    · simp only [hc1, hc2, hc3, hc4, hc5, reduceIte] at h ⊢
      exact parseArrayWith_congr_ok input (pos + 1) r _ _
        (fun pos2 r2 h2 => ih f2 input pos2 r2 (by omega) h2) h
    · simp only [hc1, hc2, hc3, hc4, hc5, reduceIte] at h
      cases h

theorem parseSimpleString_append (input rest : Str) (pos : Nat)
    (r : RESPValue × Nat) (hp : pos ≤ input.length)
    (h : RESPParser.parseSimpleString input pos = .ok r) :
    RESPParser.parseSimpleString (input ++ rest) pos = .ok r := by
  rw [RESPParser.parseSimpleString] at h ⊢
  cases hf : find2 input pos with
  | none =>
    rw [hf] at h
    cases h
  | some e =>
    obtain ⟨hpe, hee⟩ := find2_some_bounds _ _ _ hf
    simp only [find2_append _ rest _ _ hp hf,
      subStr_append input rest pos e (by omega) (by omega)]
    simp only [hf] at h
    exact h

theorem parseErrorVal_append (input rest : Str) (pos : Nat)
    (r : RESPValue × Nat) (hp : pos ≤ input.length)
    (h : RESPParser.parseErrorVal input pos = .ok r) :
    RESPParser.parseErrorVal (input ++ rest) pos = .ok r := by
  rw [RESPParser.parseErrorVal] at h ⊢
  cases hf : find2 input pos with
  | none =>
    rw [hf] at h
    cases h
  | some e =>
    obtain ⟨hpe, hee⟩ := find2_some_bounds _ _ _ hf
    simp only [find2_append _ rest _ _ hp hf,
      subStr_append input rest pos e (by omega) (by omega)]
    simp only [hf] at h
    exact h

theorem parseInteger_append (input rest : Str) (pos : Nat)
    (r : RESPValue × Nat) (hp : pos ≤ input.length)
    (h : RESPParser.parseInteger input pos = .ok r) :
    RESPParser.parseInteger (input ++ rest) pos = .ok r := by
  rw [RESPParser.parseInteger] at h ⊢
  cases hf : find2 input pos with
  | none =>
    rw [hf] at h
    cases h
  | some e =>
    obtain ⟨hpe, hee⟩ := find2_some_bounds _ _ _ hf
    simp only [find2_append _ rest _ _ hp hf,
      subStr_append input rest pos e (by omega) (by omega)]
    simp only [hf] at h
    exact h

theorem parseBulkString_append (input rest : Str) (pos : Nat)
    (r : RESPValue × Nat) (hlen : input.length < 2 ^ 62) (hp : pos ≤ input.length)
    (h : RESPParser.parseBulkString input pos = .ok r) :
    RESPParser.parseBulkString (input ++ rest) pos = .ok r := by
  have e62 : (2 : Nat) ^ 62 = 4611686018427387904 := by norm_num
  have e63 : (2 : Nat) ^ 63 = 9223372036854775808 := by norm_num
  have e64 : (2 : Nat) ^ 64 = 18446744073709551616 := by norm_num
  rw [RESPParser.parseBulkString] at h ⊢
  cases hf : find2 input pos with
  | none =>
    rw [hf] at h
    cases h
  | some lenEnd =>
    obtain ⟨hpe, hee⟩ := find2_some_bounds _ _ _ hf
    simp only [find2_append _ rest _ _ hp hf,
      subStr_append input rest pos lenEnd (by omega) (by omega)]
    simp only [hf] at h
    cases hfc : fromCharsI64 (subStr input pos lenEnd) with
    | none =>
      rw [hfc] at h
      cases h
    | some L =>
      simp only [hfc] at h ⊢
      by_cases hL1 : L = -1
      · simp only [if_pos hL1] at h ⊢
        exact h
      · simp only [if_neg hL1] at h ⊢
        by_cases hsz : (lenEnd + 2 + (L % (2 ^ 64 : Int)).toNat + 2) % 2 ^ 64 >
            input.length
        · simp only [if_pos hsz] at h
          cases h
        · simp only [if_neg hsz] at h
          by_cases hterm :
              chAt input ((lenEnd + 2 + (L % (2 ^ 64 : Int)).toNat) % 2 ^ 64) ≠ '\r' ∨
              chAt input ((lenEnd + 2 + (L % (2 ^ 64 : Int)).toNat + 1) % 2 ^ 64) ≠ '\n'
          · simp only [if_pos hterm] at h
            cases h
          · simp only [if_neg hterm] at h
            by_cases hmax : 2 ^ 63 ≤ (L % (2 ^ 64 : Int)).toNat
            · simp only [if_pos hmax] at h
              cases h
            · simp only [if_neg hmax] at h
              have hW : (L % (2 ^ 64 : Int)).toNat < 2 ^ 63 := by omega
              have hsum : lenEnd + 2 + (L % (2 ^ 64 : Int)).toNat + 2 < 2 ^ 64 := by
                omega
              have hmod : (lenEnd + 2 + (L % (2 ^ 64 : Int)).toNat + 2) % 2 ^ 64 =
                  lenEnd + 2 + (L % (2 ^ 64 : Int)).toNat + 2 := Nat.mod_eq_of_lt hsum
              have hfit : lenEnd + 2 + (L % (2 ^ 64 : Int)).toNat + 2 ≤
                  input.length := by
                rw [hmod] at hsz
                omega
              have hidx : (lenEnd + 2 + (L % (2 ^ 64 : Int)).toNat) % 2 ^ 64 =
                  lenEnd + 2 + (L % (2 ^ 64 : Int)).toNat := Nat.mod_eq_of_lt (by omega)
              have hidx1 : (lenEnd + 2 + (L % (2 ^ 64 : Int)).toNat + 1) % 2 ^ 64 =
                  lenEnd + 2 + (L % (2 ^ 64 : Int)).toNat + 1 :=
                Nat.mod_eq_of_lt (by omega)
              have hg1 : ¬((lenEnd + 2 + (L % (2 ^ 64 : Int)).toNat + 2) % 2 ^ 64 >
                  (input ++ rest).length) := by
                rw [hmod]
                simp only [List.length_append]
                omega
              have hg2 : ¬(chAt (input ++ rest)
                    ((lenEnd + 2 + (L % (2 ^ 64 : Int)).toNat) % 2 ^ 64) ≠ '\r' ∨
                  chAt (input ++ rest)
                    ((lenEnd + 2 + (L % (2 ^ 64 : Int)).toNat + 1) % 2 ^ 64) ≠ '\n') := by
                rw [hidx, hidx1, chAt_append _ _ _ (by omega),
                  chAt_append _ _ _ (by omega)]
                rw [hidx, hidx1] at hterm
                exact hterm
              rw [if_neg hg1, if_neg hg2, if_neg hmax,
                subStr_append input rest _ _ (by omega) (by omega)]
              exact h

theorem parseElemsWith_append (input rest : Str)
    (p pApp : Str → Nat → Except String (RESPValue × Nat))
    (hp : ∀ pos r, p input pos = .ok r → pApp (input ++ rest) pos = .ok r) :
    ∀ n pos r, RESPParser.parseElemsWith p n input pos = .ok r →
      RESPParser.parseElemsWith pApp n (input ++ rest) pos = .ok r := by
  intro n
  induction n with
  | zero =>
    intro pos r h
    simpa [RESPParser.parseElemsWith] using h
  | succ n ih =>
    intro pos r h
    rw [RESPParser.parseElemsWith] at h
    cases h1 : p input pos with
    | error e =>
      rw [h1] at h
      cases h
    | ok vp =>
      obtain ⟨v, pos2⟩ := vp
      simp only [h1] at h
      cases h2 : RESPParser.parseElemsWith p n input pos2 with
      | error e =>
        rw [h2] at h
        cases h
      | ok sp =>
        obtain ⟨vs, pos3⟩ := sp
        simp only [h2] at h
        rw [RESPParser.parseElemsWith]
        simp only [hp _ _ h1, ih _ _ h2]
        exact h

theorem parseArrayWith_append (input rest : Str) (pos : Nat) (r : RESPValue × Nat)
    (p pApp : Str → Nat → Except String (RESPValue × Nat))
    (hp : ∀ pos2 r2, p input pos2 = .ok r2 → pApp (input ++ rest) pos2 = .ok r2)
    (hpos : pos ≤ input.length)
    (h : RESPParser.parseArrayWith p input pos = .ok r) :
    RESPParser.parseArrayWith pApp (input ++ rest) pos = .ok r := by
  rw [RESPParser.parseArrayWith] at h ⊢
  cases hf : find2 input pos with
  | none =>
    rw [hf] at h
    cases h
  | some lenEnd =>
    obtain ⟨hpe, hee⟩ := find2_some_bounds _ _ _ hf
    simp only [find2_append _ rest _ _ hpos hf,
      subStr_append input rest pos lenEnd (by omega) (by omega)]
    simp only [hf] at h
    cases hfc : fromCharsI64 (subStr input pos lenEnd) with
    | none =>
      rw [hfc] at h
      cases h
    | some L =>
      simp only [hfc] at h ⊢
      by_cases hL1 : L = -1
      · simp only [if_pos hL1] at h ⊢
        exact h
      · simp only [if_neg hL1] at h ⊢
        by_cases hL0 : L < 0
        · simp only [if_pos hL0] at h
          cases h
        · simp only [if_neg hL0] at h ⊢
          cases he : RESPParser.parseElemsWith p L.toNat input (lenEnd + 2) with
          | error e =>
            rw [he] at h
            cases h
          | ok s =>
            obtain ⟨vs, p3⟩ := s
            simp only [he] at h
            simp only [parseElemsWith_append input rest p pApp hp _ _ _ he]
            exact h

theorem parse_append : ∀ fuel (input rest : Str) (pos : Nat) (r : RESPValue × Nat),
    input.length < 2 ^ 62 → RESPParser.parse fuel input pos = .ok r →
    RESPParser.parse fuel (input ++ rest) pos = .ok r := by
  intro fuel
  induction fuel with
  | zero =>
    intro input rest pos r hlen h
    rw [RESPParser.parse] at h
    cases h
  | succ fuel ih =>
    intro input rest pos r hlen h
    rw [RESPParser.parse] at h ⊢
    by_cases hpos : pos ≥ input.length
    · rw [if_pos hpos] at h
      cases h
    rw [if_neg hpos] at h
    rw [if_neg (show ¬ pos ≥ (input ++ rest).length by
      simp only [List.length_append]; omega)]
    have hch := chAt_append input rest pos (by omega)
    rw [hch]
    by_cases hc1 : chAt input pos = '+'
    · simp only [hc1, reduceIte] at h ⊢
      exact parseSimpleString_append input rest (pos + 1) r (by omega) h
    by_cases hc2 : chAt input pos = '-'
    · simp only [hc1, hc2, reduceIte] at h ⊢
      exact parseErrorVal_append input rest (pos + 1) r (by omega) h
    by_cases hc3 : chAt input pos = ':'
    · simp only [hc1, hc2, hc3, reduceIte] at h ⊢
      exact parseInteger_append input rest (pos + 1) r (by omega) h
    by_cases hc4 : chAt input pos = '$'
    · simp only [hc1, hc2, hc3, hc4, reduceIte] at h ⊢
      exact parseBulkString_append input rest (pos + 1) r hlen (by omega) h
    by_cases hc5 : chAt input pos = '*'
    · simp only [hc1, hc2, hc3, hc4, hc5, reduceIte] at h ⊢
      exact parseArrayWith_append input rest (pos + 1) r _ _
        (fun pos2 r2 h2 => ih input rest pos2 r2 hlen h2) (by omega) h
    · simp only [hc1, hc2, hc3, hc4, hc5, reduceIte] at h
      cases h

/-- C10: for a request buffer that begins with one complete RESP value
(`F` parses from cursor 0 to exactly its end) followed by arbitrary
trailing bytes, `handle_request` parses only that first value and
returns the single reply it dispatches to; the trailing bytes — even
further complete pipelined frames — produce no reply and do not affect
the one returned. -/
theorem C10_first_frame_only (m : KVStore.KVMap) (F rest : Str) (v : RESPValue)
    (hlen : F.length < 2 ^ 62)
    (h : RESPParser.parse (F.length + 1) F 0 = .ok (v, F.length)) :
    RedisProtocolHandler.handle_request m (F ++ rest) =
      RedisProtocolHandler.process_command m v := by
  have h1 : RESPParser.parse ((F ++ rest).length + 1) F 0 = .ok (v, F.length) :=
    parse_mono (F.length + 1) ((F ++ rest).length + 1) F 0 (v, F.length)
      (by simp only [List.length_append]; omega) h
  have h2 := parse_append ((F ++ rest).length + 1) F rest 0 (v, F.length) hlen h1
  rw [RedisProtocolHandler.handle_request]
  simp only [h2]

/-- Witness for C10: a complete `PING` frame followed by a pipelined
spare frame; the reply is the dispatch of the first frame alone. -/
theorem C10_first_frame_only_witness :
    RedisProtocolHandler.handle_request []
      ("*1\r\n$4\r\nPING\r\n".data ++ "+OK\r\n".data) =
      RedisProtocolHandler.process_command []
        (.array [.bulkString "PING".data]) :=
  C10_first_frame_only [] "*1\r\n$4\r\nPING\r\n".data "+OK\r\n".data
    (.array [.bulkString "PING".data]) (by decide) (by rfl)
